import Mathlib

/-!
Verification of the tatua-ticketing-app core against its specification.

This file shallowly embeds the data-processing core of the repository:
the query evaluator (`processTickets` in
`js/services/old table/table.js`, identical logic in `processData` of the
legacy dynamic table and in `TatuaTicketingSystem.loadTickets` of
`js/main.js`), the local data provider (`fetchData`), the grid engine's
fetch cycle and snapshot (`fetchServerData`, `getState` in `js/table.js`),
the rule-editor reset handlers, the storage strategies
(`MemoryStorage`, `PersistentStorage` and its `SessionStorage` /
`LocalStorage` instantiations), and the confidentiality wrapper
(`decryptAES` in `js/services/crypto.js`).

JavaScript values that can appear in a ticket record field are modelled by
`JsVal`: strings, integers and `undefined`.  JavaScript's abstract
relational comparison is modelled by `jsLtB`; its `ToNumber` coercion of
strings is modelled for optionally signed decimal integer literals (the
repository's data only ever compares strings, so the restriction is a
documented simplification that is exact on every concrete input used
below).  `Array.prototype.sort` (required to be stable by ES2019) is
modelled by a stable insertion sort `jsSortArr`; for every comparator that
is consistent (a total preorder) the stable sorted permutation is unique,
so the model agrees with any compliant engine there, and inputs whose
comparator is inconsistent are implementation-defined in JavaScript
itself.  External primitives that are not repository code (the CryptoJS
cipher, `JSON.stringify` / `JSON.parse`, the browser key-value stores) are
taken as explicit function parameters.
-/

/-- A JavaScript field value as used by the ticket records: a string, an
integer number, or `undefined` (also standing for an absent field). -/
inductive JsVal where
  | vStr : String → JsVal
  | vNum : Int → JsVal
  | vUndefined : JsVal
deriving DecidableEq, Repr

/-- A JS object (ticket record) as an association list from field names to
values; lookup takes the first binding. -/
abbrev Rec := List (String × JsVal)

/-- Field access `obj[key]`: the first binding for `key`, `undefined` when
the field is absent. -/
def getF (r : Rec) (k : String) : JsVal :=
  match r.find? (fun p => p.1 == k) with
  | some p => p.2
  | none => .vUndefined

/-- Three-way comparison of char lists, mirroring JS string comparison by
code units (exact for the ASCII data this repository handles). -/
def charListCmp : List Char → List Char → Ordering
  | [], [] => .eq
  | [], _ :: _ => .lt
  | _ :: _, [] => .gt
  | a :: as, b :: bs =>
    if a.toNat < b.toNat then .lt
    else if b.toNat < a.toNat then .gt
    else charListCmp as bs

/-- Decimal digit accumulator for the `ToNumber` model. -/
def decDigitsAux : List Char → Nat → Option Nat
  | [], acc => some acc
  | ch :: t, acc =>
    if ch.isDigit then decDigitsAux t (acc * 10 + (ch.toNat - 48)) else none

/-- Whitespace test for the trimming step of `ToNumber`. -/
def wsp (c : Char) : Bool :=
  c == ' ' || c == '\t' || c == '\n' || c == '\r'

/-- Strip leading and trailing whitespace from a char list. -/
def trimChars (l : List Char) : List Char :=
  ((l.dropWhile wsp).reverse.dropWhile wsp).reverse

/-- JS `ToNumber` on strings, restricted to optionally signed decimal
integer literals (a trimmed empty string is `0`, a non-numeric string is
`NaN`, i.e. `none`).  Fractional, exponent and hex forms are out of scope
for the repository's data. -/
def jsStrToNum? (s : String) : Option Int :=
  match trimChars s.toList with
  | [] => some 0
  | '-' :: t =>
    match t with
    | [] => none
    | _ :: _ => (decDigitsAux t 0).map (fun n => -(n : Int))
  | '+' :: t =>
    match t with
    | [] => none
    | _ :: _ => (decDigitsAux t 0).map (fun n => (n : Int))
  | l => (decDigitsAux l 0).map (fun n => (n : Int))

/-- JS `ToNumber` of a field value; `none` models `NaN`. -/
def toNum? : JsVal → Option Int
  | .vNum n => some n
  | .vStr s => jsStrToNum? s
  | .vUndefined => none

/-- JS abstract relational comparison `a < b`: lexicographic when both
operands are strings, otherwise numeric after `ToNumber`, where any `NaN`
operand makes the comparison false. -/
def jsLtB : JsVal → JsVal → Bool
  | .vStr a, .vStr b => charListCmp a.toList b.toList == Ordering.lt
  | a, b =>
    match toNum? a, toNum? b with
    | some x, some y => decide (x < y)
    | _, _ => false

/-- The per-field comparison value computed by the sort comparator in
`processTickets`: `1` when `valA > valB`, `-1` when `valA < valB`, else
`0` (JS `a > b` is the relational comparison `b < a`). -/
def cmpVal (a b : JsVal) : Int :=
  if jsLtB b a then 1 else if jsLtB a b then -1 else 0

/-- A sort rule `{ column, order }` with order `"asc"` or `"desc"`. -/
structure SortRule where
  column : String
  order : String
deriving DecidableEq, Repr

/-- A filter rule `{ column, relation, value }`. -/
structure FilterRule where
  column : String
  relation : String
  value : String
deriving DecidableEq, Repr

/-- The tie-break chain of the sort comparator in `processTickets`: walk
the sorters in order; the first rule whose field comparison is non-zero
decides (negated unless the order is `"asc"`); otherwise `0`. -/
def chainCompare : List SortRule → Rec → Rec → Int
  | [], _, _ => 0
  | s :: rest, a, b =>
    let c := cmpVal (getF a s.column) (getF b s.column)
    if c ≠ 0 then (if s.order == "asc" then c else -c)
    else chainCompare rest a b

/-- Comparator says `a` must come strictly after `b`. -/
def sortGt (sorters : List SortRule) (a b : Rec) : Bool :=
  decide (0 < chainCompare sorters a b)

/-- Stable insertion of `x` into `l`: `x` is placed before the first
element `y` with `gt y x`, hence after every earlier element it compares
equal to. -/
def jsInsert (gt : α → α → Bool) (x : α) : List α → List α
  | [] => [x]
  | y :: ys => if gt y x then x :: y :: ys else y :: jsInsert gt x ys

/-- Model of `Array.prototype.sort(comparator)` as a stable insertion
sort; agrees with every compliant engine whenever the comparator is
consistent. -/
def jsSortArr (gt : α → α → Bool) (l : List α) : List α :=
  l.foldl (fun acc x => jsInsert gt x acc) []

/-- Model of `(value || '').toString()` applied to a field value: any
falsy value (`undefined`, the number `0`, the empty string) becomes the
empty string, everything else is coerced to a string. -/
def fieldString : JsVal → String
  | .vStr s => s
  | .vNum n => if n = 0 then "" else toString n
  | .vUndefined => ""

/-- Char-list test that `hay` starts with `needle` (JS `startsWith`). -/
def listStartsWith : List Char → List Char → Bool
  | _, [] => true
  | [], _ :: _ => false
  | a :: as, b :: bs => a == b && listStartsWith as bs

/-- Char-list test that `needle` occurs inside `hay` (JS `includes`). -/
def listIncludes : List Char → List Char → Bool
  | hay, needle =>
    if listStartsWith hay needle then true
    else
      match hay with
      | [] => false
      | _ :: t => listIncludes t needle

/-- ASCII lower-casing of a string, modelling `toLowerCase` on the ASCII
data this repository handles. -/
def lowerStr (s : String) : String :=
  ⟨s.data.map Char.toLower⟩

/-- Relation dispatch of the filter in `processTickets`: `equals`,
`contains`, `startsWith`, `endsWith`; any other relation matches
unconditionally (the `default: return true` branch). -/
def relApply (relation tv fv : String) : Bool :=
  if relation == "equals" then tv == fv
  else if relation == "contains" then listIncludes tv.toList fv.toList
  else if relation == "startsWith" then listStartsWith tv.toList fv.toList
  else if relation == "endsWith" then
    listStartsWith tv.toList.reverse fv.toList.reverse
  else true

/-- One filter rule applied to one record, as in `processTickets`:
`(ticket[filter.column] || '').toString().toLowerCase()` compared against
`(filter.value || '').toString().toLowerCase()` under the rule's
relation. -/
def filterMatches (t : Rec) (f : FilterRule) : Bool :=
  relApply f.relation (lowerStr (fieldString (getF t f.column))) (lowerStr f.value)

/-- The query evaluator `processTickets(tickets, filters, sorters)`
(`js/services/old table/table.js`, lines 413-443; the same logic appears
in `processData` of the legacy dynamic table and in
`TatuaTicketingSystem.loadTickets` of `js/main.js`): copy, filter by the
conjunction of the rules when the rule list is non-empty, then sort with
the tie-break comparator. -/
def processTickets (tickets : List Rec) (filters : List FilterRule)
    (sorters : List SortRule) : List Rec :=
  let processed :=
    if 0 < filters.length then
      tickets.filter (fun t => filters.all (filterMatches t))
    else tickets
  jsSortArr (sortGt sorters) processed

/-- The client-side `processData(data, filters, sorters)` of the legacy
dynamic table (`js/services/old table/table.js`, lines 76-108); its body
is identical to `processTickets`. -/
def processData (data : List Rec) (filters : List FilterRule)
    (sorters : List SortRule) : List Rec :=
  processTickets data filters sorters

/-- The claim-side rule satisfaction of C1, written from the spec's words:
both sides coerced to string (an absent or undefined field is the empty
string), compared case-insensitively under the rule's relation. -/
def claimSatisfies (t : Rec) (f : FilterRule) : Bool :=
  let tv :=
    match getF t f.column with
    | .vUndefined => ""
    | .vStr s => s
    | .vNum n => toString n
  relApply f.relation (lowerStr tv) (lowerStr f.value)

/-- String coercion `String(v)` of a field value, used to express the
claim that mixed-type operands are compared as strings. -/
def jsToString : JsVal → String
  | .vStr s => s
  | .vNum n => toString n
  | .vUndefined => "undefined"

/-- Ceiling division `Math.ceil(a / b)` on naturals (for `b ≥ 1`). -/
def natCeilDiv (a b : Nat) : Nat := (a + b - 1) / b

/-- Result of the client-side branch of `fetchData` in the legacy dynamic
table (`js/services/old table/table.js`, lines 160-191): the displayed
page, the total count and the page count. -/
structure FetchState where
  displayedData : List Rec
  totalCount : Nat
  totalPages : Nat
deriving Repr

/-- The client-side branch of `fetchData`: process the full collection
with `processData`, take its length as `totalCount`, slice the current
page when pagination is enabled, and derive `totalPages`. -/
def fetchData (data : List Rec) (filters : List FilterRule)
    (sorters : List SortRule) (enabled : Bool) (pageSize currentPage : Nat) :
    FetchState :=
  let fullProcessed := processData data filters sorters
  let totalCount := fullProcessed.length
  let displayedData :=
    if enabled then
      (fullProcessed.drop ((currentPage - 1) * pageSize)).take pageSize
    else fullProcessed
  let totalPages := if enabled then natCeilDiv totalCount pageSize else 1
  ⟨displayedData, totalCount, totalPages⟩

/-- The grid engine's mutable `state` object in `js/table.js`.  The
selection `Set` is carried as a list of keys. -/
structure GS where
  data : List Rec
  totalCount : Nat
  totalPages : Nat
  currentPage : Nat
  filters : List FilterRule
  sorters : List SortRule
  selectedRows : List JsVal
deriving Repr

/-- What the awaited `dataSource` call hands back on success: the `data`
member (`none` models a non-array value, handled by `Array.isArray`) and
the `totalCount` member (`none` models `undefined`, handled by
`totalCount || 0`). -/
structure FetchResult where
  data : Option (List Rec)
  totalCount : Option Nat

/-- One fetch cycle of the grid engine (`fetchServerData` in
`js/table.js`, lines 68-93), given the settled outcome of the
`dataSource` promise: on fulfilment, store the page, recompute
`totalPages` and clamp `currentPage` into `[1, totalPages || 1]`; on
rejection, the `catch` block empties `data` and zeroes `totalCount`,
leaving every other state member unchanged.  The function is total: no
outcome propagates an exception. -/
def fetchServerData (enabled : Bool) (pageSize : Nat)
    (res : Except Unit FetchResult) (s : GS) : GS :=
  match res with
  | .ok r =>
    let data := r.data.getD []
    let totalCount := r.totalCount.getD 0
    let totalPages := if enabled then natCeilDiv totalCount pageSize else 1
    let currentPage :=
      max 1 (min s.currentPage (if totalPages = 0 then 1 else totalPages))
    { s with data, totalCount, totalPages, currentPage }
  | .error _ => { s with data := [], totalCount := 0 }

/-- The GridState invariant claimed in the spec, section 3. -/
def invariantGS (enabled : Bool) (pageSize : Nat) (s : GS) : Prop :=
  1 ≤ s.currentPage ∧ s.currentPage ≤ max 1 s.totalPages ∧
    s.totalPages = (if enabled then natCeilDiv s.totalCount pageSize else 1)

instance (enabled : Bool) (pageSize : Nat) (s : GS) :
    Decidable (invariantGS enabled pageSize s) := by
  unfold invariantGS; infer_instance

/-- Which rule set a rule-editor session edits. -/
inductive RuleKey where
  | filters
  | sorters
deriving DecidableEq

/-- The reset handler installed by `setupModal` in `js/table.js` (lines
164-169) for both the filter and the sorter modal sessions:
`state[stateKey] = []; state.currentPage = 1` (then close and refresh),
ignoring the scratch rows of the modal. -/
def modalResetHandler (key : RuleKey) (s : GS) : GS :=
  match key with
  | .filters => { s with filters := [], currentPage := 1 }
  | .sorters => { s with sorters := [], currentPage := 1 }

/-- Model of `resetSorters` of the legacy controllers (`TatuaTicketingSystem` in
`js/main.js` lines 945-948 and `App` in `js/app.js` lines 218-221): the
committed sorter set becomes the single default rule, discarding the
previous value. -/
def resetSorters (currentSorters : List SortRule) : List SortRule :=
  [⟨"dateCreated", "desc"⟩]

/-- Model of `resetFilters` of the legacy controllers: the committed filter set
becomes empty, discarding the previous value. -/
def resetFilters (currentFilters : List FilterRule) : List FilterRule :=
  []

/-- A heap of JS array/set objects, addressed by reference. -/
def Heap : Type := Nat → List JsVal

/-- In-place mutation of the object behind reference `r`. -/
def writeHeap (h : Heap) (r : Nat) (v : List JsVal) : Heap :=
  fun x => if x = r then v else h x

/-- The reference layout of the grid engine's `state` object: the `data`,
`filters`, `sorters` arrays and the `selectedRows` set live on the heap;
the scalar members are stored inline. -/
structure StateRefs where
  dataRef : Nat
  filtersRef : Nat
  sortersRef : Nat
  selectedRowsRef : Nat
  currentPage : Nat
  totalCount : Nat
  totalPages : Nat
deriving DecidableEq, Repr

/-- The snapshot accessor `getState` of `js/table.js` (line 292):
`({ ...state, selectedRows: new Set(state.selectedRows) })`.  The object
spread copies the scalar members and the array references unchanged;
only `selectedRows` is a fresh allocation (`fresh`) holding a copy of the
current selection. -/
def getState (s : StateRefs) (h : Heap) (fresh : Nat) : StateRefs × Heap :=
  ({ s with selectedRowsRef := fresh }, writeHeap h fresh (h s.selectedRowsRef))

/-- Model of `MemoryStorage.saveTicket`: `this.tickets.unshift(ticket)`. -/
def memSaveTicket (tickets : List Rec) (t : Rec) : List Rec :=
  t :: tickets

/-- Model of `MemoryStorage.getTicket`: first ticket whose `id` field equals the
requested id. -/
def memGetTicket (tickets : List Rec) (tid : JsVal) : Option Rec :=
  tickets.find? (fun t => getF t "id" == tid)

/-- Model of `PersistentStorage.getTickets` (shared by `SessionStorage` and
`LocalStorage`, which instantiate it over the session-scoped and the
persistent browser store): an absent or empty slot is the empty
collection; otherwise decrypt (`dec`, the `decryptAES` composite) and
parse (`deser`, `JSON.parse` returning `none` when it throws), falling
back to the empty collection. -/
def pGetTickets (dec : String → String) (deser : String → Option (List Rec))
    (slot : Option String) : List Rec :=
  match slot with
  | none => []
  | some stored => if stored = "" then [] else (deser (dec stored)).getD []

/-- Model of `PersistentStorage.saveTicket`: read the whole collection, prepend the
new record, then persist the re-serialized (`ser`, `JSON.stringify`) and
encrypted (`enc`, `encryptAES`) whole collection into the slot. -/
def pSaveTicket (enc dec : String → String) (ser : List Rec → String)
    (deser : String → Option (List Rec)) (slot : Option String) (t : Rec) :
    Option String :=
  some (enc (ser (t :: pGetTickets dec deser slot)))

/-- Model of `PersistentStorage.getTicket`: linear scan of the decrypted, parsed
collection. -/
def pGetTicket (dec : String → String) (deser : String → Option (List Rec))
    (slot : Option String) (tid : JsVal) : Option Rec :=
  (pGetTickets dec deser slot).find? (fun t => getF t "id" == tid)

/-- The confidentiality wrapper `decryptAES` of `js/services/crypto.js`:
`dec` models the external CryptoJS primitive composed with the UTF-8
decode (`none` when it throws, `some s` when it yields `s`).  An
exception or an empty decryption result falls back to returning the
ciphertext input unchanged; the function is total, so no input makes it
throw. -/
def decryptAES (dec : String → Option String) (ciphertext : String) : String :=
  match dec ciphertext with
  | none => ciphertext
  | some s => if s = "" then ciphertext else s

/-! Generic lemmas about the insertion-sort model. -/

theorem jsInsert_eq_parts (gt : α → α → Bool) (x : α) (l : List α) :
    jsInsert gt x l =
      l.takeWhile (fun y => !gt y x) ++ x :: l.dropWhile (fun y => !gt y x) := by
  induction l with
  | nil => rfl
  | cons y ys ih =>
    cases hgt : gt y x with
    | true => simp [jsInsert, hgt, List.takeWhile_cons, List.dropWhile_cons]
    | false => simp [jsInsert, hgt, List.takeWhile_cons, List.dropWhile_cons, ih]

theorem jsInsert_perm (gt : α → α → Bool) (x : α) (l : List α) :
    List.Perm (jsInsert gt x l) (x :: l) := by
  rw [jsInsert_eq_parts]
  refine List.perm_middle.trans ?_
  rw [List.takeWhile_append_dropWhile]

theorem sublist_jsInsert (gt : α → α → Bool) (x : α) {s l : List α}
    (h : List.Sublist s l) : List.Sublist s (jsInsert gt x l) := by
  refine h.trans ?_
  rw [jsInsert_eq_parts]
  conv_lhs => rw [← List.takeWhile_append_dropWhile (p := fun y => !gt y x) (l := l)]
  exact (List.sublist_cons_self x _).append_left _

theorem jsInsert_eq_append (gt : α → α → Bool) (x : α) (l : List α)
    (h : ∀ y ∈ l, gt y x = false) : jsInsert gt x l = l ++ [x] := by
  induction l with
  | nil => rfl
  | cons y ys ih =>
    have hy : gt y x = false := h y (List.mem_cons_self y ys)
    simp only [jsInsert, hy, Bool.false_eq_true, if_false, List.cons_append]
    rw [ih (fun z hz => h z (List.mem_cons_of_mem y hz))]

theorem jsSortFold_perm (gt : α → α → Bool) :
    ∀ (l acc : List α),
      List.Perm (l.foldl (fun acc x => jsInsert gt x acc) acc) (l ++ acc) := by
  intro l
  induction l with
  | nil => intro acc; simp
  | cons x xs ih =>
    intro acc
    simp only [List.foldl_cons, List.cons_append]
    refine (ih (jsInsert gt x acc)).trans ?_
    refine ((jsInsert_perm gt x acc).append_left xs).trans ?_
    exact List.perm_middle

theorem jsSortArr_perm (gt : α → α → Bool) (l : List α) :
    List.Perm (jsSortArr gt l) l := by
  simpa using jsSortFold_perm gt l []

theorem jsSortArr_eq_self (gt : α → α → Bool) (hgt : ∀ a b : α, gt a b = false)
    (l : List α) : jsSortArr gt l = l := by
  suffices h : ∀ (m acc : List α), m.foldl (fun acc x => jsInsert gt x acc) acc = acc ++ m by
    simpa using h l []
  intro m
  induction m with
  | nil => intro acc; simp
  | cons x xs ih =>
    intro acc
    simp only [List.foldl_cons]
    rw [jsInsert_eq_append gt x acc (fun y _ => hgt y x), ih]
    simp

theorem jsSortFold_sublist (gt : α → α → Bool) :
    ∀ (l acc s : List α), List.Sublist s acc →
      List.Sublist s (l.foldl (fun acc x => jsInsert gt x acc) acc) := by
  intro l
  induction l with
  | nil => intro acc s h; simpa using h
  | cons x xs ih =>
    intro acc s h
    simp only [List.foldl_cons]
    exact ih _ s (sublist_jsInsert gt x h)

theorem dropWhile_head_false (p : α → Bool) :
    ∀ (l : List α) (h : α) (t : List α), l.dropWhile p = h :: t → p h = false := by
  intro l
  induction l with
  | nil => intro h t hyp; simp [List.dropWhile] at hyp
  | cons a as ih =>
    intro h t hyp
    rw [List.dropWhile_cons] at hyp
    by_cases ha : p a
    · simp only [ha, if_true] at hyp
      exact ih h t hyp
    · simp only [ha, if_false] at hyp
      cases hyp
      exact Bool.eq_false_iff.mpr ha

theorem takeWhile_append_through (p : α → Bool) (x : α) (hx : p x = true) :
    ∀ (P Q : List α), (∀ a ∈ P, p a = true) →
      (P ++ x :: Q).takeWhile p = P ++ x :: Q.takeWhile p ∧
      (P ++ x :: Q).dropWhile p = Q.dropWhile p := by
  intro P
  induction P with
  | nil =>
    intro Q _
    simp [List.takeWhile_cons, List.dropWhile_cons, hx]
  | cons a as ih =>
    intro Q hP
    have ha : p a = true := hP a (List.mem_cons_self a as)
    have := ih Q (fun b hb => hP b (List.mem_cons_of_mem a hb))
    simp [List.takeWhile_cons, List.dropWhile_cons, ha, this.1, this.2]

/-! Lemmas about the tie-break comparator. -/

theorem charListCmp_lt_asymm :
    ∀ l₁ l₂ : List Char, charListCmp l₁ l₂ = .lt → charListCmp l₂ l₁ = .gt := by
  intro l₁
  induction l₁ with
  | nil =>
    intro l₂ h
    cases l₂ with
    | nil => simp [charListCmp] at h
    | cons b bs => simp [charListCmp]
  | cons a as ih =>
    intro l₂ h
    cases l₂ with
    | nil => simp [charListCmp] at h
    | cons b bs =>
      simp only [charListCmp] at h ⊢
      by_cases hab : a.toNat < b.toNat
      · have hba : ¬ b.toNat < a.toNat := by omega
        simp [hab, hba]
      · by_cases hba : b.toNat < a.toNat
        · simp [hab, hba] at h
        · simp only [hab, hba, if_false] at h ⊢
          exact ih bs h

theorem jsLtB_asymm (a b : JsVal) (h : jsLtB a b = true) : jsLtB b a = false := by
  cases a with
  | vStr sa =>
    cases b with
    | vStr sb =>
      simp only [jsLtB] at h ⊢
      have h' : charListCmp sa.toList sb.toList = Ordering.lt := by
        cases hc : charListCmp sa.toList sb.toList with
        | lt => rfl
        | eq => rw [hc] at h; exact absurd h (by decide)
        | gt => rw [hc] at h; exact absurd h (by decide)
      rw [charListCmp_lt_asymm _ _ h']
      decide
    | vNum n =>
      simp only [jsLtB] at h ⊢
      cases hx : jsStrToNum? sa with
      | none => simp [toNum?, hx] at h
      | some x =>
        simp only [toNum?, hx, decide_eq_true_eq] at h
        simp only [toNum?, hx]
        simp only [decide_eq_false_iff_not]
        omega
    | vUndefined =>
      simp [jsLtB, toNum?] at h
  | vNum m =>
    cases b with
    | vStr sb =>
      simp only [jsLtB] at h ⊢
      cases hy : jsStrToNum? sb with
      | none => simp [toNum?, hy] at h
      | some y =>
        simp only [toNum?, hy, decide_eq_true_eq] at h
        simp only [toNum?, hy]
        simp only [decide_eq_false_iff_not]
        omega
    | vNum n =>
      simp only [jsLtB, toNum?, decide_eq_true_eq] at h
      simp only [jsLtB, toNum?]
      simp only [decide_eq_false_iff_not]
      omega
    | vUndefined =>
      simp [jsLtB, toNum?] at h
  | vUndefined =>
    cases b with
    | vStr sb =>
      simp only [jsLtB, toNum?] at h
      cases hy : jsStrToNum? sb with
      | none => simp [hy] at h
      | some y => simp [hy] at h
    | vNum n => simp [jsLtB, toNum?] at h
    | vUndefined => simp [jsLtB, toNum?] at h

theorem cmpVal_neg (a b : JsVal) : cmpVal a b = -(cmpVal b a) := by
  unfold cmpVal
  cases hba : jsLtB b a with
  | true =>
    rw [jsLtB_asymm b a hba]
    simp
  | false =>
    cases hab : jsLtB a b with
    | true => simp
    | false => simp

theorem chainCompare_neg (sorters : List SortRule) (a b : Rec) :
    chainCompare sorters a b = -(chainCompare sorters b a) := by
  induction sorters with
  | nil => simp [chainCompare]
  | cons s rest ih =>
    simp only [chainCompare]
    rw [show cmpVal (getF b s.column) (getF a s.column)
          = -(cmpVal (getF a s.column) (getF b s.column)) from cmpVal_neg _ _]
    by_cases h : cmpVal (getF a s.column) (getF b s.column) = 0
    · simp [h, ih]
    · have h2 : -(cmpVal (getF a s.column) (getF b s.column)) ≠ 0 := by omega
      rw [if_pos h, if_pos h2]
      cases ho : s.order == "asc" with
      | true => simp
      | false => simp

theorem sortGt_eq_false_iff (sorters : List SortRule) (a b : Rec) :
    sortGt sorters a b = false ↔ chainCompare sorters a b ≤ 0 := by
  simp [sortGt]

theorem sortGt_eq_true_iff (sorters : List SortRule) (a b : Rec) :
    sortGt sorters a b = true ↔ 0 < chainCompare sorters a b := by
  simp [sortGt]

theorem sortGt_nil (a b : Rec) : sortGt [] a b = false := by
  simp [sortGt, chainCompare]

/-! Pairwise ordering and stability of the sort model under a locally
transitive comparator. -/

theorem jsInsert_pairwise (sorters : List SortRule) (L : List Rec)
    (htrans : ∀ a ∈ L, ∀ b ∈ L, ∀ d ∈ L,
      chainCompare sorters a b ≤ 0 → chainCompare sorters b d ≤ 0 →
      chainCompare sorters a d ≤ 0)
    (x : Rec) (hx : x ∈ L) (acc : List Rec) (hacc : ∀ a ∈ acc, a ∈ L)
    (hp : acc.Pairwise (fun a b => chainCompare sorters a b ≤ 0)) :
    (jsInsert (sortGt sorters) x acc).Pairwise
      (fun a b => chainCompare sorters a b ≤ 0) := by
  rw [jsInsert_eq_parts]
  have hsplit : acc.takeWhile (fun y => !sortGt sorters y x)
      ++ acc.dropWhile (fun y => !sortGt sorters y x) = acc :=
    List.takeWhile_append_dropWhile _ acc
  have hpsplit := hsplit ▸ hp
  have hparts := List.pairwise_append.mp hpsplit
  have htwmem : ∀ a ∈ acc.takeWhile (fun y => !sortGt sorters y x), a ∈ acc :=
    fun a ha => (List.takeWhile_prefix _).sublist.subset ha
  have hdwmem : ∀ a ∈ acc.dropWhile (fun y => !sortGt sorters y x), a ∈ acc :=
    fun a ha => (List.dropWhile_suffix _).sublist.subset ha
  rw [List.pairwise_append]
  refine ⟨hparts.1, ?_, ?_⟩
  · rw [List.pairwise_cons]
    refine ⟨?_, hparts.2.1⟩
    intro b hb
    cases hB : acc.dropWhile (fun y => !sortGt sorters y x) with
    | nil => rw [hB] at hb; exact absurd hb (List.not_mem_nil b)
    | cons h t =>
      have hph : (fun y => !sortGt sorters y x) h = false :=
        dropWhile_head_false _ acc h t hB
      have hgt : sortGt sorters h x = true := by
        simpa using hph
      have hxh : chainCompare sorters x h ≤ 0 := by
        have := (sortGt_eq_true_iff sorters h x).mp hgt
        rw [chainCompare_neg]
        omega
      rw [hB] at hb
      rcases List.mem_cons.mp hb with hbh | hbt
      · exact hbh ▸ hxh
      · have hpB : (h :: t).Pairwise (fun a b => chainCompare sorters a b ≤ 0) :=
          hB ▸ hparts.2.1
        have hhb : chainCompare sorters h b ≤ 0 :=
          (List.pairwise_cons.mp hpB).1 b hbt
        have hhmem : h ∈ acc := hdwmem h (hB ▸ List.mem_cons_self h t)
        have hbmem : b ∈ acc := hdwmem b (hB ▸ List.mem_cons_of_mem h hbt)
        exact htrans x hx h (hacc h hhmem) b (hacc b hbmem) hxh hhb
  · intro a ha b hb
    have hpa := List.mem_takeWhile_imp ha
    have hax : chainCompare sorters a x ≤ 0 := by
      have h2 : sortGt sorters a x = false := by simpa using hpa
      exact (sortGt_eq_false_iff sorters a x).mp h2
    rcases List.mem_cons.mp hb with hbx | hbd
    · exact hbx ▸ hax
    · exact hparts.2.2 a ha b hbd

theorem jsSortFold_pairwise (sorters : List SortRule) (L : List Rec)
    (htrans : ∀ a ∈ L, ∀ b ∈ L, ∀ d ∈ L,
      chainCompare sorters a b ≤ 0 → chainCompare sorters b d ≤ 0 →
      chainCompare sorters a d ≤ 0) :
    ∀ (l acc : List Rec), (∀ a ∈ l, a ∈ L) → (∀ a ∈ acc, a ∈ L) →
      acc.Pairwise (fun a b => chainCompare sorters a b ≤ 0) →
      (l.foldl (fun acc x => jsInsert (sortGt sorters) x acc) acc).Pairwise
        (fun a b => chainCompare sorters a b ≤ 0) := by
  intro l
  induction l with
  | nil => intro acc _ _ hp; simpa using hp
  | cons x xs ih =>
    intro acc hl hacc hp
    simp only [List.foldl_cons]
    refine ih _ (fun a ha => hl a (List.mem_cons_of_mem x ha)) ?_ ?_
    · intro a ha
      have ha2 := (jsInsert_perm (sortGt sorters) x acc).mem_iff.mp ha
      rcases List.mem_cons.mp ha2 with h | h
      · exact h ▸ hl x (List.mem_cons_self x xs)
      · exact hacc a h
    · exact jsInsert_pairwise sorters L htrans x (hl x (List.mem_cons_self x xs))
        acc hacc hp

theorem jsInsert_keeps_before (sorters : List SortRule) (L : List Rec)
    (htrans : ∀ a ∈ L, ∀ b ∈ L, ∀ d ∈ L,
      chainCompare sorters a b ≤ 0 → chainCompare sorters b d ≤ 0 →
      chainCompare sorters a d ≤ 0)
    (x z : Rec) (hx : x ∈ L) (hz : z ∈ L)
    (hxz : chainCompare sorters x z ≤ 0)
    (acc : List Rec) (hacc : ∀ a ∈ acc, a ∈ L)
    (hp : acc.Pairwise (fun a b => chainCompare sorters a b ≤ 0))
    (hmem : x ∈ acc) :
    List.Sublist [x, z] (jsInsert (sortGt sorters) z acc) := by
  obtain ⟨P, Q, rfl⟩ := List.append_of_mem hmem
  have hcross := (List.pairwise_append.mp hp).2.2
  have hPQ : ∀ a ∈ P, (fun y => !sortGt sorters y z) a = true := by
    intro a ha
    have hax : chainCompare sorters a x ≤ 0 :=
      hcross a ha x (List.mem_cons_self x Q)
    have hamem : a ∈ P ++ x :: Q := List.mem_append_left _ ha
    have haz : chainCompare sorters a z ≤ 0 :=
      htrans a (hacc a hamem) x hx z hz hax hxz
    simpa using (sortGt_eq_false_iff sorters a z).mpr haz
  have hpx : (fun y => !sortGt sorters y z) x = true := by
    simpa using (sortGt_eq_false_iff sorters x z).mpr hxz
  obtain ⟨htw, hdw⟩ :=
    takeWhile_append_through (fun y => !sortGt sorters y z) x hpx P Q hPQ
  rw [jsInsert_eq_parts, htw, hdw]
  have h1 : List.Sublist [z] (z :: Q.dropWhile (fun y => !sortGt sorters y z)) :=
    (List.nil_sublist _).cons₂ z
  have h2 : List.Sublist [z]
      (Q.takeWhile (fun y => !sortGt sorters y z)
        ++ z :: Q.dropWhile (fun y => !sortGt sorters y z)) :=
    h1.trans (List.sublist_append_right _ _)
  have h3 : List.Sublist [x, z]
      (x :: (Q.takeWhile (fun y => !sortGt sorters y z)
        ++ z :: Q.dropWhile (fun y => !sortGt sorters y z))) :=
    h2.cons₂ x
  have h4 := h3.trans
    (List.sublist_append_right P
      (x :: (Q.takeWhile (fun y => !sortGt sorters y z)
        ++ z :: Q.dropWhile (fun y => !sortGt sorters y z))))
  simpa using h4

/-! Basic facts about processTickets. -/

theorem processTickets_filters_nil (tickets : List Rec) (sorters : List SortRule) :
    processTickets tickets [] sorters = jsSortArr (sortGt sorters) tickets := by
  simp [processTickets]

theorem jsSortArr_sortGt_nil (l : List Rec) : jsSortArr (sortGt []) l = l :=
  jsSortArr_eq_self (sortGt []) sortGt_nil l

theorem processTickets_sorters_nil (tickets : List Rec) (filters : List FilterRule) :
    processTickets tickets filters [] =
      tickets.filter (fun t => filters.all (filterMatches t)) := by
  cases filters with
  | nil =>
    simp [processTickets, jsSortArr_sortGt_nil]
  | cons f fs =>
    simp only [processTickets, List.length_cons]
    rw [if_pos (by omega)]
    exact jsSortArr_sortGt_nil _

theorem filterMatches_eq_claim (t : Rec) (f : FilterRule)
    (h : getF t f.column ≠ .vNum 0) : filterMatches t f = claimSatisfies t f := by
  unfold filterMatches claimSatisfies
  cases hv : getF t f.column with
  | vStr s => rfl
  | vUndefined => rfl
  | vNum n =>
    have hn : n ≠ 0 := by
      rintro rfl
      exact h hv
    simp [fieldString, hn]

/-- C1 (amended).  Filtering through `processTickets` with no sorters
returns exactly the records that satisfy every rule, in their original
relative order (the result is literally `List.filter` of the conjunction
of the rules, and the embedding is pure, so the input is not mutated),
and an empty rule list returns the input unchanged.  A rule is satisfied
by case-insensitive string comparison where the record's field is coerced
by JS truthiness — an absent, `undefined`, `0` or empty-string field
value counts as the empty string — which agrees with the claim's
plain-string coercion on every field value other than the falsy number
`0` (third conjunct). -/
theorem c1_filter_exact (tickets : List Rec) (filters : List FilterRule) :
    processTickets tickets filters [] =
      tickets.filter (fun t => filters.all (filterMatches t)) ∧
    processTickets tickets [] [] = tickets ∧
    (∀ (t : Rec) (f : FilterRule), getF t f.column ≠ .vNum 0 →
      filterMatches t f = claimSatisfies t f) := by
  refine ⟨processTickets_sorters_nil tickets filters, ?_, ?_⟩
  · rw [processTickets_sorters_nil]
    simp
  · intro t f h
    exact filterMatches_eq_claim t f h

/-- C1 witness: the amended theorem applied at a record with a present,
non-zero field. -/
theorem c1_filter_exact_witness :
    filterMatches [("x", JsVal.vStr "Bug")] ⟨"x", "equals", "bug"⟩ =
      claimSatisfies [("x", JsVal.vStr "Bug")] ⟨"x", "equals", "bug"⟩ :=
  (c1_filter_exact [] []).2.2 [("x", JsVal.vStr "Bug")] ⟨"x", "equals", "bug"⟩
    (by decide)

/-- C1 counterexample: a record whose field holds the falsy number `0` is
rejected by the code's filter under the rule `equals "0"`, although the
claim's coerce-both-sides-to-string semantics accepts it, so filtering
does not return exactly the records that satisfy every rule in the
claim's sense. -/
theorem c1_claim_counterexample :
    processTickets [[("x", JsVal.vNum 0)]] [⟨"x", "equals", "0"⟩] [] = [] ∧
    List.filter (fun t => List.all [(⟨"x", "equals", "0"⟩ : FilterRule)]
      (claimSatisfies t)) [[("x", JsVal.vNum 0)]] = [[("x", JsVal.vNum 0)]] := by
  constructor
  · decide
  · decide

/-- C2 (amended).  Under the proviso that the tie-break comparison is
transitive across the given records (which holds in particular whenever
the compared fields all carry values of one type, e.g. the repository's
string-valued ticket fields), sorting through `processTickets` returns a
permutation of the records in which every record is at-or-before each
record the rule chain places strictly after it (rules applied in list
order, first non-equal comparison deciding, reversed for `"desc"`),
records equal under all rules keep their original relative order, and the
empty rule list returns the input in its original order (the last part
unconditionally).  Without the transitivity proviso — possible with
mixed-type fields — the chain ordering of the output can fail, see the
counterexample. -/
theorem c2_sort_tiebreak (tickets : List Rec) (sorters : List SortRule)
    (htrans : ∀ a ∈ tickets, ∀ b ∈ tickets, ∀ d ∈ tickets,
      chainCompare sorters a b ≤ 0 → chainCompare sorters b d ≤ 0 →
      chainCompare sorters a d ≤ 0) :
    List.Perm (processTickets tickets [] sorters) tickets ∧
    (processTickets tickets [] sorters).Pairwise
      (fun a b => chainCompare sorters a b ≤ 0) ∧
    (∀ (l₁ l₂ l₃ : List Rec) (x y : Rec),
      tickets = l₁ ++ x :: (l₂ ++ y :: l₃) → chainCompare sorters x y = 0 →
      List.Sublist [x, y] (processTickets tickets [] sorters)) ∧
    processTickets tickets [] [] = tickets := by
  rw [processTickets_filters_nil]
  refine ⟨jsSortArr_perm _ _, ?_, ?_, ?_⟩
  · exact jsSortFold_pairwise sorters tickets htrans tickets []
      (fun a ha => ha) (by simp) List.Pairwise.nil
  · intro l₁ l₂ l₃ x y hdec hxy
    have hx : x ∈ tickets := by rw [hdec]; simp
    have hy : y ∈ tickets := by rw [hdec]; simp
    have hl₁ : ∀ a ∈ l₁, a ∈ tickets := by
      intro a ha; rw [hdec]; exact List.mem_append_left _ ha
    have hl₂ : ∀ a ∈ l₂, a ∈ tickets := by
      intro a ha; rw [hdec]; simp [ha]
    have hxy' : chainCompare sorters x y ≤ 0 := by omega
    have hacc₀ : ∀ a ∈ List.foldl
        (fun acc x => jsInsert (sortGt sorters) x acc) [] l₁, a ∈ tickets := by
      intro a ha
      have := (jsSortFold_perm (sortGt sorters) l₁ []).mem_iff.mp ha
      simp only [List.append_nil] at this
      exact hl₁ a this
    have hp₀ := jsSortFold_pairwise sorters tickets htrans l₁ []
      hl₁ (by simp) List.Pairwise.nil
    have hacc₁ : ∀ a ∈ jsInsert (sortGt sorters) x
        (List.foldl (fun acc x => jsInsert (sortGt sorters) x acc) [] l₁),
        a ∈ tickets := by
      intro a ha
      have h2 := (jsInsert_perm (sortGt sorters) x _).mem_iff.mp ha
      rcases List.mem_cons.mp h2 with h3 | h3
      · exact h3 ▸ hx
      · exact hacc₀ a h3
    have hp₁ := jsInsert_pairwise sorters tickets htrans x hx _ hacc₀ hp₀
    have hxmem₁ : x ∈ jsInsert (sortGt sorters) x
        (List.foldl (fun acc x => jsInsert (sortGt sorters) x acc) [] l₁) :=
      (jsInsert_perm (sortGt sorters) x _).mem_iff.mpr (List.mem_cons_self x _)
    have hacc₂ : ∀ a ∈ List.foldl (fun acc x => jsInsert (sortGt sorters) x acc)
        (jsInsert (sortGt sorters) x
          (List.foldl (fun acc x => jsInsert (sortGt sorters) x acc) [] l₁)) l₂,
        a ∈ tickets := by
      intro a ha
      have h2 := (jsSortFold_perm (sortGt sorters) l₂ _).mem_iff.mp ha
      rcases List.mem_append.mp h2 with h3 | h3
      · exact hl₂ a h3
      · exact hacc₁ a h3
    have hp₂ := jsSortFold_pairwise sorters tickets htrans l₂ _ hl₂ hacc₁ hp₁
    have hxmem₂ : x ∈ List.foldl (fun acc x => jsInsert (sortGt sorters) x acc)
        (jsInsert (sortGt sorters) x
          (List.foldl (fun acc x => jsInsert (sortGt sorters) x acc) [] l₁)) l₂ :=
      (jsSortFold_perm (sortGt sorters) l₂ _).mem_iff.mpr
        (List.mem_append_right _ hxmem₁)
    have hkey := jsInsert_keeps_before sorters tickets htrans x y hx hy hxy' _
      hacc₂ hp₂ hxmem₂
    have hfinal := jsSortFold_sublist (sortGt sorters) l₃ _ [x, y] hkey
    rw [hdec]
    unfold jsSortArr
    rw [List.foldl_append, List.foldl_cons, List.foldl_append, List.foldl_cons]
    exact hfinal
  · rw [processTickets_filters_nil]
    exact jsSortArr_sortGt_nil tickets

/-- C2 witness: the amended theorem applied to two string-dated tickets
under the default descending date sorter, discharging the transitivity
proviso by evaluation. -/
theorem c2_sort_tiebreak_witness :
    (processTickets [[("dateCreated", JsVal.vStr "2024-01-01")],
        [("dateCreated", JsVal.vStr "2024-02-01")]] []
        [⟨"dateCreated", "desc"⟩]).Pairwise
      (fun a b => chainCompare [⟨"dateCreated", "desc"⟩] a b ≤ 0) ∧
    processTickets [[("dateCreated", JsVal.vStr "2024-01-01")],
        [("dateCreated", JsVal.vStr "2024-02-01")]] [] [] =
      [[("dateCreated", JsVal.vStr "2024-01-01")],
        [("dateCreated", JsVal.vStr "2024-02-01")]] :=
  ⟨(c2_sort_tiebreak [[("dateCreated", JsVal.vStr "2024-01-01")],
      [("dateCreated", JsVal.vStr "2024-02-01")]]
      [⟨"dateCreated", "desc"⟩] (by decide)).2.1,
   (c2_sort_tiebreak [[("dateCreated", JsVal.vStr "2024-01-01")],
      [("dateCreated", JsVal.vStr "2024-02-01")]]
      [⟨"dateCreated", "desc"⟩] (by decide)).2.2.2⟩

/-- C2 counterexample: with mixed-type fields the tie-break comparator is
not transitive, and the sorted output of the code is not ordered by the
chain: sorting `{x:"b"}, {x:5}, {x:"6"}` ascending on `x` leaves a pair
in the output that the first (and only) rule orders the other way, so the
claim's unqualified "returns the records ordered by the tie-break chain"
is false.  (Any ES-compliant engine misorders this input as well, since
each pairwise comparison is forced: `"b" ? 5` and `5 ? "6"` compare as
equal while `"b" > "6"` as strings.) -/
theorem c2_claim_counterexample :
    ¬ (processTickets [[("x", JsVal.vStr "b")], [("x", JsVal.vNum 5)],
        [("x", JsVal.vStr "6")]] [] [⟨"x", "asc"⟩]).Pairwise
      (fun a b => chainCompare [⟨"x", "asc"⟩] a b ≤ 0) := by
  decide

/-! Facts for C3: totality and the behaviour of incomparable operands. -/

theorem cmpVal_range (a b : JsVal) :
    cmpVal a b = 1 ∨ cmpVal a b = 0 ∨ cmpVal a b = -1 := by
  unfold cmpVal
  by_cases h1 : jsLtB b a <;> by_cases h2 : jsLtB a b <;> simp [h1, h2]

theorem chainCompare_range (sorters : List SortRule) (a b : Rec) :
    chainCompare sorters a b = 1 ∨ chainCompare sorters a b = 0 ∨
      chainCompare sorters a b = -1 := by
  induction sorters with
  | nil => simp [chainCompare]
  | cons s rest ih =>
    simp only [chainCompare]
    by_cases h : cmpVal (getF a s.column) (getF b s.column) = 0
    · simpa [h] using ih
    · rw [if_pos h]
      rcases cmpVal_range (getF a s.column) (getF b s.column) with h1 | h1 | h1 <;>
        [skip; exact absurd h1 h; skip] <;>
        cases ho : s.order == "asc" <;> simp [h1]

theorem jsLtB_undef_left (v : JsVal) : jsLtB .vUndefined v = false := by
  cases v with
  | vStr s =>
    cases h : jsStrToNum? s <;> simp [jsLtB, toNum?, h]
  | vNum n => simp [jsLtB, toNum?]
  | vUndefined => simp [jsLtB, toNum?]

theorem jsLtB_undef_right (v : JsVal) : jsLtB v .vUndefined = false := by
  cases v with
  | vStr s =>
    cases h : jsStrToNum? s <;> simp [jsLtB, toNum?, h]
  | vNum n => simp [jsLtB, toNum?]
  | vUndefined => simp [jsLtB, toNum?]

theorem cmpVal_undef_left (v : JsVal) : cmpVal .vUndefined v = 0 := by
  unfold cmpVal
  rw [jsLtB_undef_left, jsLtB_undef_right]
  simp

theorem cmpVal_undef_right (v : JsVal) : cmpVal v .vUndefined = 0 := by
  unfold cmpVal
  rw [jsLtB_undef_left, jsLtB_undef_right]
  simp

theorem cmpVal_mixed_nan (s : String) (n : Int) (h : jsStrToNum? s = none) :
    cmpVal (.vStr s) (.vNum n) = 0 ∧ cmpVal (.vNum n) (.vStr s) = 0 := by
  constructor <;> simp [cmpVal, jsLtB, toNum?, h]

theorem jsSortArr_eq_self_of_forall_mem (gt : α → α → Bool) (l : List α)
    (h : ∀ a ∈ l, ∀ b ∈ l, gt a b = false) : jsSortArr gt l = l := by
  suffices h2 : ∀ (m acc : List α), (∀ a ∈ m, a ∈ l) → (∀ a ∈ acc, a ∈ l) →
      m.foldl (fun acc x => jsInsert gt x acc) acc = acc ++ m by
    simpa using h2 l [] (fun a ha => ha) (by simp)
  intro m
  induction m with
  | nil => intro acc _ _; simp
  | cons x xs ih =>
    intro acc hm hacc
    simp only [List.foldl_cons]
    rw [jsInsert_eq_append gt x acc
      (fun y hy => h y (hacc y hy) x (hm x (List.mem_cons_self x xs)))]
    rw [ih (acc ++ [x]) (fun a ha => hm a (List.mem_cons_of_mem x ha)) ?_]
    · simp
    · intro a ha
      rcases List.mem_append.mp ha with h3 | h3
      · exact hacc a h3
      · simp only [List.mem_singleton] at h3
        exact h3 ▸ hm x (List.mem_cons_self x xs)

/-- C3 (amended).  The equal-vs-unequal determination of the sort
comparator is total: the chain value is always one of `1`, `0`, `-1`, it
negates under operand swap, and the induced at-or-before relation is
total.  However, mixed-type operands are not coerced to string: a string
that fails numeric coercion compares equal (`0`) to every number, and an
absent column's `undefined` compares equal to every value — it does not
order as the lowest value — so records whose rule columns are all absent
keep their original relative order under sorting. -/
theorem c3_comparator_totality (sorters : List SortRule) (a b : Rec) :
    chainCompare sorters a b = -(chainCompare sorters b a) ∧
    (chainCompare sorters a b ≤ 0 ∨ chainCompare sorters b a ≤ 0) ∧
    (chainCompare sorters a b = 1 ∨ chainCompare sorters a b = 0 ∨
      chainCompare sorters a b = -1) ∧
    (∀ v : JsVal, cmpVal .vUndefined v = 0 ∧ cmpVal v .vUndefined = 0) ∧
    (∀ (s : String) (n : Int), jsStrToNum? s = none →
      cmpVal (.vStr s) (.vNum n) = 0 ∧ cmpVal (.vNum n) (.vStr s) = 0) ∧
    (∀ (tickets : List Rec) (s : SortRule),
      (∀ t ∈ tickets, getF t s.column = .vUndefined) →
      processTickets tickets [] [s] = tickets) := by
  refine ⟨chainCompare_neg sorters a b, ?_, chainCompare_range sorters a b,
    fun v => ⟨cmpVal_undef_left v, cmpVal_undef_right v⟩,
    cmpVal_mixed_nan, ?_⟩
  · have h := chainCompare_neg sorters a b
    omega
  · intro tickets s h
    rw [processTickets_filters_nil]
    refine jsSortArr_eq_self_of_forall_mem _ tickets ?_
    intro x hx y hy
    rw [sortGt_eq_false_iff]
    simp only [chainCompare, h x hx, h y hy, cmpVal_undef_left]
    simp [chainCompare]

/-- C3 witness: the amended theorem applied at the non-numeric string
`"abc"` against the number `5` and at a collection whose sorter column is
absent. -/
theorem c3_comparator_totality_witness :
    (cmpVal (.vStr "abc") (.vNum 5) = 0 ∧ cmpVal (.vNum 5) (.vStr "abc") = 0) ∧
    processTickets [[("y", JsVal.vStr "q")], [("y", JsVal.vStr "a")]] []
      [⟨"x", "asc"⟩] = [[("y", JsVal.vStr "q")], [("y", JsVal.vStr "a")]] :=
  ⟨(c3_comparator_totality [] [] []).2.2.2.2.1 "abc" 5 (by decide),
   (c3_comparator_totality [] [] []).2.2.2.2.2
     [[("y", JsVal.vStr "q")], [("y", JsVal.vStr "a")]] ⟨"x", "asc"⟩
     (by decide)⟩

/-- C3 counterexample: mixed-type operands are not coerced to string —
the code compares `"abc"` and `5` as equal (`0`) while the string-coerced
comparison of `"abc"` and `"5"` yields `1` — and `undefined` does not
order as the lowest value: ascending sort on a column absent from the
second record leaves that record in last place, and `undefined` compares
equal (`0`, not `-1`) against `"b"`. -/
theorem c3_claim_counterexample :
    cmpVal (.vStr "abc") (.vNum 5) = 0 ∧
    cmpVal (.vStr (jsToString (.vStr "abc"))) (.vStr (jsToString (.vNum 5))) = 1 ∧
    cmpVal .vUndefined (.vStr "b") = 0 ∧
    processTickets [[("x", JsVal.vStr "b")], []] [] [⟨"x", "asc"⟩] =
      [[("x", JsVal.vStr "b")], []] := by
  refine ⟨by decide, by decide, by decide, by decide⟩

/-! Facts for C4: the local data provider. -/

theorem processTickets_length (tickets : List Rec) (filters : List FilterRule)
    (sorters : List SortRule) :
    (processTickets tickets filters sorters).length =
      (tickets.filter (fun t => filters.all (filterMatches t))).length := by
  unfold processTickets
  rw [(jsSortArr_perm _ _).length_eq]
  cases filters with
  | nil => simp
  | cons f fs => rw [if_pos (by simp)]

/-- C4.  For every page request with `page ≥ 1` and `pageSize ≥ 1`
against the local (client-side) branch of `fetchData`, the returned
`totalCount` is the length of the filtered collection, the returned data
is the slice of the filtered-then-sorted collection starting at index
`(page-1)*pageSize`, and its length is
`min(pageSize, totalCount - (page-1)*pageSize)` (natural subtraction
clamping the difference at `0`). -/
theorem c4_fetch_page (data : List Rec) (filters : List FilterRule)
    (sorters : List SortRule) (pageSize currentPage : Nat)
    (hp : 1 ≤ currentPage) (hs : 1 ≤ pageSize) :
    (fetchData data filters sorters true pageSize currentPage).totalCount =
      (data.filter (fun t => filters.all (filterMatches t))).length ∧
    (fetchData data filters sorters true pageSize currentPage).displayedData =
      ((processData data filters sorters).drop
        ((currentPage - 1) * pageSize)).take pageSize ∧
    (fetchData data filters sorters true pageSize currentPage).displayedData.length =
      min pageSize
        ((fetchData data filters sorters true pageSize currentPage).totalCount
          - (currentPage - 1) * pageSize) := by
  refine ⟨?_, ?_, ?_⟩
  · simp only [fetchData]
    exact processTickets_length data filters sorters
  · simp [fetchData]
  · simp [fetchData, List.length_take, List.length_drop]

/-- C4 witness: the theorem applied to a three-record collection with
page size 2 at page 2. -/
theorem c4_fetch_page_witness :
    (fetchData [[("id", JsVal.vStr "A")], [("id", JsVal.vStr "B")],
        [("id", JsVal.vStr "C")]] [] [] true 2 2).totalCount = 3 ∧
    (fetchData [[("id", JsVal.vStr "A")], [("id", JsVal.vStr "B")],
        [("id", JsVal.vStr "C")]] [] [] true 2 2).displayedData.length = 1 := by
  have h := c4_fetch_page [[("id", JsVal.vStr "A")], [("id", JsVal.vStr "B")],
    [("id", JsVal.vStr "C")]] [] [] 2 2 (by decide) (by decide)
  refine ⟨?_, ?_⟩
  · rw [h.1]; decide
  · rw [h.2.2, h.1]; decide

/-! Facts for C5: the grid engine's fetch cycle. -/

/-- C5 (amended).  A fetch cycle never propagates an exception (the
embedding is a total function over both settled outcomes).  After a
successful fetch the GridState invariant holds:
`1 ≤ currentPage ≤ max(1, totalPages)` and
`totalPages = ceil(totalCount / pageSize)` when pagination is enabled,
else `1`.  After a failed fetch the `catch` block empties `data` and sets
`totalCount := 0` but leaves `totalPages`, `currentPage` and the rule
sets at their previous values, so the `totalPages` equation of the
invariant can be violated until the next successful fetch. -/
theorem c5_fetch_cycle (enabled : Bool) (pageSize : Nat) (hs : 1 ≤ pageSize)
    (s : GS) (r : FetchResult) :
    invariantGS enabled pageSize (fetchServerData enabled pageSize (.ok r) s) ∧
    fetchServerData enabled pageSize (.error ()) s =
      { s with data := [], totalCount := 0 } := by
  refine ⟨?_, rfl⟩
  unfold fetchServerData invariantGS
  dsimp only
  refine ⟨by omega, ?_, rfl⟩
  by_cases h : (if enabled = true then
      natCeilDiv (r.totalCount.getD 0) pageSize else 1) = 0
  · rw [if_pos h]
    omega
  · rw [if_neg h]
    omega

/-- C5 witness: the theorem applied at page size 8 to a state on page 3
with a successfully fulfilled fetch. -/
theorem c5_fetch_cycle_witness :
    invariantGS true 8 (fetchServerData true 8
      (.ok ⟨some [[("id", JsVal.vStr "A")]], some 20⟩)
      ⟨[], 40, 5, 3, [], [], []⟩) :=
  (c5_fetch_cycle true 8 (by decide) ⟨[], 40, 5, 3, [], [], []⟩
    ⟨some [[("id", JsVal.vStr "A")]], some 20⟩).1

/-- C5 counterexample: after a failed fetch from a state with
`totalPages = 5`, the state has `totalCount = 0` and `data = []` but
still `totalPages = 5 ≠ ceil(0 / 8) = 0`, so the claimed invariant does
not hold after every fetch cycle. -/
theorem c5_claim_counterexample :
    (fetchServerData true 8 (.error ()) ⟨[], 40, 5, 3, [], [], []⟩).totalCount = 0 ∧
    (fetchServerData true 8 (.error ()) ⟨[], 40, 5, 3, [], [], []⟩).data = [] ∧
    (fetchServerData true 8 (.error ()) ⟨[], 40, 5, 3, [], [], []⟩).totalPages = 5 ∧
    ¬ invariantGS true 8 (fetchServerData true 8 (.error ())
        ⟨[], 40, 5, 3, [], [], []⟩) := by
  refine ⟨rfl, rfl, rfl, by decide⟩

/-- C6 (amended).  `getState` returns a shallow defensive copy: the
scalar members are copied and `selectedRows` is a freshly allocated copy
of the selection, so reading the snapshot's selection sees the engine's
current selection while mutating the snapshot's selection leaves the
engine's selection untouched; but the `data`, `filters` and `sorters`
members of the snapshot are the very references held by the engine, so
in-place mutations through those snapshot members do reach the engine's
state. -/
theorem c6_snapshot_shallow (s : StateRefs) (h : Heap) (fresh : Nat)
    (hfresh : fresh ≠ s.selectedRowsRef) :
    (getState s h fresh).1.dataRef = s.dataRef ∧
    (getState s h fresh).1.filtersRef = s.filtersRef ∧
    (getState s h fresh).1.sortersRef = s.sortersRef ∧
    (getState s h fresh).1.currentPage = s.currentPage ∧
    (getState s h fresh).1.totalCount = s.totalCount ∧
    (getState s h fresh).1.totalPages = s.totalPages ∧
    (getState s h fresh).1.selectedRowsRef ≠ s.selectedRowsRef ∧
    (getState s h fresh).2 ((getState s h fresh).1.selectedRowsRef) =
      h s.selectedRowsRef ∧
    (getState s h fresh).2 s.selectedRowsRef = h s.selectedRowsRef ∧
    (∀ v : List JsVal,
      writeHeap (getState s h fresh).2 ((getState s h fresh).1.selectedRowsRef) v
        s.selectedRowsRef = (getState s h fresh).2 s.selectedRowsRef) := by
  refine ⟨rfl, rfl, rfl, rfl, rfl, rfl, hfresh, ?_, ?_, ?_⟩
  · simp [getState, writeHeap]
  · simp [getState, writeHeap, Ne.symm hfresh]
  · intro v
    simp [getState, writeHeap, Ne.symm hfresh]

/-- C6 witness: the shallow-copy theorem applied at a concrete reference
layout with a fresh selection reference. -/
theorem c6_snapshot_shallow_witness :
    (getState ⟨0, 1, 2, 3, 1, 0, 1⟩ (fun _ => []) 4).1.selectedRowsRef ≠ 3 ∧
    (getState ⟨0, 1, 2, 3, 1, 0, 1⟩ (fun _ => []) 4).1.dataRef = 0 :=
  ⟨(c6_snapshot_shallow ⟨0, 1, 2, 3, 1, 0, 1⟩ (fun _ => []) 4 (by decide)).2.2.2.2.2.2.1,
   (c6_snapshot_shallow ⟨0, 1, 2, 3, 1, 0, 1⟩ (fun _ => []) 4 (by decide)).1⟩

/-- C6 counterexample: the snapshot's `data` member is the engine's own
array reference, so an in-place write through the snapshot changes the
engine's view of its data: before the write the engine's data slot
(reference 0) reads `[]`, after a write through the snapshot's `dataRef`
it reads `[vNum 7]`.  Hence a caller mutation on a snapshot member does
change the engine's internal state, contradicting the claim. -/
theorem c6_claim_counterexample :
    (getState ⟨0, 1, 2, 3, 1, 0, 1⟩ (fun _ => []) 4).1.dataRef = 0 ∧
    (getState ⟨0, 1, 2, 3, 1, 0, 1⟩ (fun _ => []) 4).2 0 = [] ∧
    writeHeap (getState ⟨0, 1, 2, 3, 1, 0, 1⟩ (fun _ => []) 4).2
      ((getState ⟨0, 1, 2, 3, 1, 0, 1⟩ (fun _ => []) 4).1.dataRef)
      [JsVal.vNum 7] 0 = [JsVal.vNum 7] := by
  refine ⟨rfl, ?_, ?_⟩
  · simp [getState, writeHeap]
  · simp [getState, writeHeap]

/-- C7 (amended).  Resetting a rule editor session discards the scratch
buffer and the previous rules: the legacy controllers
(`TatuaTicketingSystem.resetSorters` in `js/main.js`, `App.resetSorters`
in `js/app.js`) commit the single default rule
`{dateCreated, Descending}` for sorters and the empty set for filters,
but the generic grid engine's modal sessions (`setupModal` in
`js/table.js`) commit the empty rule set for both the filter and the
sorter session, resetting `currentPage` to 1. -/
theorem c7_reset_sessions (s : GS) (fs : List FilterRule) (ss : List SortRule) :
    (modalResetHandler .filters s).filters = [] ∧
    (modalResetHandler .filters s).currentPage = 1 ∧
    (modalResetHandler .sorters s).sorters = [] ∧
    (modalResetHandler .sorters s).currentPage = 1 ∧
    resetFilters fs = [] ∧
    resetSorters ss = [⟨"dateCreated", "desc"⟩] :=
  ⟨rfl, rfl, rfl, rfl, rfl, rfl⟩

/-- C7 counterexample: in the grid engine's sorter session, reset commits
the empty rule set, which is not the claimed single default rule
`{dateCreated, Descending}`. -/
theorem c7_claim_counterexample :
    (modalResetHandler .sorters
      ⟨[], 0, 1, 1, [], [⟨"id", "asc"⟩], []⟩).sorters = [] ∧
    ([] : List SortRule) ≠ [⟨"dateCreated", "desc"⟩] :=
  ⟨rfl, by decide⟩

/-- C8.  Saving a record and reading it back by its id returns the record
for the volatile strategy and — given that the serializer, cipher and
store primitives round-trip on the collection being written — for the
persistent strategies alike (`SessionStorage` and `LocalStorage` are the
two instantiations of the embedded `PersistentStorage`); the saved record
becomes the first element of the stored collection (save prepends), and
the durable save persists the re-serialized, encrypted whole
collection. -/
theorem c8_storage_roundtrip (tickets : List Rec) (r : Rec) :
    memGetTicket (memSaveTicket tickets r) (getF r "id") = some r ∧
    (memSaveTicket tickets r).head? = some r ∧
    (∀ (enc dec : String → String) (ser : List Rec → String)
      (deser : String → Option (List Rec)) (slot : Option String),
      enc (ser (r :: pGetTickets dec deser slot)) ≠ "" →
      deser (dec (enc (ser (r :: pGetTickets dec deser slot)))) =
        some (r :: pGetTickets dec deser slot) →
      pSaveTicket enc dec ser deser slot r =
        some (enc (ser (r :: pGetTickets dec deser slot))) ∧
      pGetTickets dec deser (pSaveTicket enc dec ser deser slot r) =
        r :: pGetTickets dec deser slot ∧
      pGetTicket dec deser (pSaveTicket enc dec ser deser slot r)
        (getF r "id") = some r) := by
  have hfind : ∀ (l : List Rec),
      List.find? (fun t => getF t "id" == getF r "id") (r :: l) = some r := by
    intro l
    rw [List.find?_cons]
    simp
  refine ⟨?_, rfl, ?_⟩
  · unfold memGetTicket memSaveTicket
    exact hfind tickets
  · intro enc dec ser deser slot hne hround
    have hsome : ∀ str : String, pGetTickets dec deser (some str) =
        if str = "" then [] else (deser (dec str)).getD [] := fun _ => rfl
    have hlist : pGetTickets dec deser (pSaveTicket enc dec ser deser slot r) =
        r :: pGetTickets dec deser slot := by
      unfold pSaveTicket
      rw [hsome, if_neg hne, hround]
      rfl
    refine ⟨rfl, hlist, ?_⟩
    unfold pGetTicket
    rw [hlist]
    exact hfind _

/-- C8 witness: the round trip at a one-record save into an empty slot,
with identity cipher and a constant-string serializer whose parser
returns the written collection. -/
theorem c8_storage_roundtrip_witness :
    memGetTicket (memSaveTicket [] [("id", JsVal.vStr "TKT-1")])
      (getF [("id", JsVal.vStr "TKT-1")] "id") =
      some [("id", JsVal.vStr "TKT-1")] ∧
    pGetTicket (fun s => s) (fun _ => some [[("id", JsVal.vStr "TKT-1")]])
      (pSaveTicket (fun s => s) (fun s => s) (fun _ => "x")
        (fun _ => some [[("id", JsVal.vStr "TKT-1")]]) none
        [("id", JsVal.vStr "TKT-1")])
      (getF [("id", JsVal.vStr "TKT-1")] "id") =
      some [("id", JsVal.vStr "TKT-1")] := by
  have h := c8_storage_roundtrip [] [("id", JsVal.vStr "TKT-1")]
  exact ⟨h.1, (h.2.2 (fun s => s) (fun s => s) (fun _ => "x")
    (fun _ => some [[("id", JsVal.vStr "TKT-1")]]) none
    (by decide) (by decide)).2.2⟩

/-- C9.  `decryptAES` never throws: the embedding is a total function of
the settled primitive outcome, and whenever the underlying decryption
primitive throws (`none`) or yields the empty string, the input
ciphertext is returned unchanged — in particular `decrypt(garbage)`
returns `garbage` for any input the fixed passphrase cannot decrypt.
The second conjunct characterises every outcome: the result is either
the unchanged input (the fail-open path) or the successfully decrypted
non-empty text. -/
theorem c9_decrypt_fail_open (dec : String → Option String) (c : String)
    (h : dec c = none ∨ dec c = some "") :
    decryptAES dec c = c ∧
    (∀ (d2 : String → Option String) (c2 : String),
      decryptAES d2 c2 = c2 ∨ d2 c2 = some (decryptAES d2 c2)) := by
  constructor
  · rcases h with h | h <;> simp [decryptAES, h]
  · intro d2 c2
    cases hd : d2 c2 with
    | none =>
      left
      simp [decryptAES, hd]
    | some s =>
      by_cases hs : s = ""
      · left
        simp [decryptAES, hd, hs]
      · right
        simp [decryptAES, hd, hs]

/-- C9 witness: a primitive that always throws makes `decryptAES` return
the garbage input unchanged. -/
theorem c9_decrypt_fail_open_witness :
    decryptAES (fun _ => none) "garbage" = "garbage" :=
  (c9_decrypt_fail_open (fun _ => none) "garbage" (Or.inl rfl)).1

/-! Facts for C10: the default relation branch and the unknown column. -/

theorem relApply_default (relation tv fv : String)
    (h : relation ∉ (["equals", "contains", "startsWith", "endsWith"] :
      List String)) : relApply relation tv fv = true := by
  simp only [List.mem_cons, List.not_mem_nil, or_false, not_or] at h
  obtain ⟨h1, h2, h3, h4⟩ := h
  simp [relApply, h1, h2, h3, h4]

theorem string_ne_empty_toList (s : String) (h : s ≠ "") : s.toList ≠ [] := by
  intro hc
  apply h
  cases s with
  | mk data =>
    simp only [String.toList] at hc
    subst hc
    rfl

theorem listIncludes_nil_of_ne (needle : List Char) (h : needle ≠ []) :
    listIncludes [] needle = false := by
  cases needle with
  | nil => exact absurd rfl h
  | cons a as => rfl

/-- C10.  A filter rule whose relation is none of `equals`, `contains`,
`startsWith`, `endsWith` is matched by every record (the comparator's
`default` branch), so a rule set of only such rules filters out nothing;
by contrast a rule over a column absent from a record, under any of the
four recognised relations and with a non-blank value, rejects that record
(the absent field reads as the empty string, which no non-empty value
equals, is contained in, or borders). -/
theorem c10_default_relation (tickets : List Rec) (filters : List FilterRule)
    (hrel : ∀ f ∈ filters, f.relation ∉
      (["equals", "contains", "startsWith", "endsWith"] : List String)) :
    processTickets tickets filters [] = tickets ∧
    (∀ (t : Rec) (f : FilterRule),
      f.relation ∈ (["equals", "contains", "startsWith", "endsWith"] :
        List String) →
      getF t f.column = .vUndefined → f.value ≠ "" →
      filterMatches t f = false) := by
  constructor
  · rw [processTickets_sorters_nil]
    rw [List.filter_eq_self]
    intro t _
    rw [List.all_eq_true]
    intro f hf
    unfold filterMatches
    exact relApply_default f.relation _ _ (hrel f hf)
  · intro t f hfour hund hval
    have hfv : (lowerStr f.value).toList ≠ [] := by
      intro hc
      apply string_ne_empty_toList f.value hval
      have : f.value.data.map Char.toLower = [] := hc
      rcases List.map_eq_nil_iff.mp this with h2
      exact h2
    unfold filterMatches
    rw [hund]
    have htv : lowerStr (fieldString .vUndefined) = "" := rfl
    rw [htv]
    have hemp : (("" : String).toList) = ([] : List Char) := rfl
    rcases (List.mem_cons.mp hfour) with h | hfour
    · rw [h]
      unfold relApply
      rw [if_pos (by decide)]
      rw [beq_eq_false_iff_ne]
      intro hc
      exact hfv (by rw [← hc]; rfl)
    rcases (List.mem_cons.mp hfour) with h | hfour
    · rw [h]
      unfold relApply
      rw [if_neg (by decide), if_pos (by decide), hemp]
      exact listIncludes_nil_of_ne _ hfv
    rcases (List.mem_cons.mp hfour) with h | hfour
    · rw [h]
      unfold relApply
      rw [if_neg (by decide), if_neg (by decide), if_pos (by decide), hemp]
      cases hc : (lowerStr f.value).toList with
      | nil => exact absurd hc hfv
      | cons a as => rfl
    rcases (List.mem_cons.mp hfour) with h | hfour
    · rw [h]
      unfold relApply
      rw [if_neg (by decide), if_neg (by decide), if_neg (by decide),
        if_pos (by decide), hemp]
      have hc : (lowerStr f.value).toList.reverse ≠ [] := by
        intro hc
        exact hfv (by simpa using congrArg List.reverse hc)
      cases hr : (lowerStr f.value).toList.reverse with
      | nil => exact absurd hr hc
      | cons a as => rfl
    · exact absurd hfour (List.not_mem_nil f.relation)

/-- C10 witness: an unrecognised relation (`"gt"`) filters out nothing,
and an `equals` rule over an absent column with a non-blank value rejects
the record. -/
theorem c10_default_relation_witness :
    processTickets [[("y", JsVal.vStr "a")]] [⟨"x", "gt", "5"⟩] [] =
      [[("y", JsVal.vStr "a")]] ∧
    filterMatches [("y", JsVal.vStr "a")] ⟨"zzz", "equals", "a"⟩ = false := by
  have h := c10_default_relation [[("y", JsVal.vStr "a")]] [⟨"x", "gt", "5"⟩]
    (by decide)
  exact ⟨h.1, h.2 [("y", JsVal.vStr "a")] ⟨"zzz", "equals", "a"⟩
    (by decide) (by decide) (by decide)⟩
